import Mathlib

/-!
# Shallow embedding of the grove port registry (src/services/ports.ts)

The registry subsystem persists a single JSON file holding a `PortRegistry`
value and exposes `allocatePorts` / `releasePorts` / query operations on it.
Pure data is translated directly; the file-system effects (`existsSync`,
`readFileSync` + `JSON.parse`, `writeFileSync`) are modelled by an explicit
`FileState` value threaded through the operations, with `JSON.parse` failure
on an unreadable/corrupt file represented by the `corrupt` state.  JavaScript
`Record<string, T>` objects are modelled as association lists together with a
`recordSet` operation reproducing JavaScript property assignment (replace the
binding when the key is present, append a fresh binding otherwise).  The port
keys of `allocations` are `String(port)` in JavaScript and converted back with
`Number`; since these conversions are mutually inverse on naturals the keys
are modelled directly as `Nat`.
-/

set_option autoImplicit false

namespace Grove

/-- One allocation record (interface `PortAllocation` in ports.ts). -/
structure PortAllocation where
  project : String
  environment : String
  varName : String
  allocatedAt : String
  deriving Repr, DecidableEq

/-- The persisted registry (interface `PortRegistry` in ports.ts).  The
TypeScript interface annotates the field as the literal type `version: 1`,
but that annotation is erased at runtime: `readRegistry` obtains the value
from `JSON.parse(content) as PortRegistry`, an unchecked cast, so the parsed
value may carry any integer version.  The field is therefore modelled as an
arbitrary `Nat`. -/
structure PortRegistry where
  version : Nat
  allocations : List (Nat × PortAllocation)
  deriving Repr, DecidableEq

/-- `DEFAULT_PORT_RANGE` in ports.ts. -/
def DEFAULT_PORT_RANGE : Nat × Nat := (30000, 39999)

/-- `createEmptyRegistry()` in ports.ts. -/
def createEmptyRegistry : PortRegistry :=
  { version := 1, allocations := [] }

/-- JavaScript property assignment `obj[k] = v` on a record modelled as an
association list: if the key is already present its binding is replaced in
place, otherwise the new binding is appended. -/
def recordSet {α : Type} [DecidableEq α] {β : Type}
    (m : List (α × β)) (k : α) (v : β) : List (α × β) :=
  if k ∈ m.map Prod.fst then
    m.map (fun p => if p.1 = k then (k, v) else p)
  else
    m ++ [(k, v)]

/-- The state of the registry file on disk: missing, present but not valid
JSON (so `JSON.parse` throws), or present and parsed to a registry value. -/
inductive FileState where
  | absent
  | corrupt
  | stored (r : PortRegistry)
  deriving Repr, DecidableEq

/-- Errors thrown by the registry operations: the range-exhaustion `Error`
thrown by `findNextAvailablePort` (carrying the range bounds and the number
of allocated ports interpolated into its message), and the storage-layer
error propagated when `JSON.parse` throws on an existing unreadable file. -/
inductive PortError where
  | exhaustedRange (minPort maxPort allocatedCount : Nat)
  | storageError
  deriving Repr, DecidableEq

/-- `readRegistry()` in ports.ts: a missing file yields a fresh empty
registry; an existing file is read and parsed, a parse failure propagating
to the caller; a parsed file is returned as-is (the `as PortRegistry` cast
performs no runtime validation). -/
def readRegistry : FileState → Except PortError PortRegistry
  | .absent => .ok createEmptyRegistry
  | .corrupt => .error .storageError
  | .stored r => .ok r

/-- `writeRegistry(registry)` in ports.ts: serializes the registry and
overwrites the file, leaving it in the `stored` state. -/
def writeRegistry (registry : PortRegistry) : FileState :=
  .stored registry

/-- The set of used ports in `findNextAvailablePort`:
`new Set(Object.keys(registry.allocations).map(Number))`.  A JavaScript
`Set` holds each element once, hence the `dedup`. -/
def usedPorts (registry : PortRegistry) : List Nat :=
  (registry.allocations.map Prod.fst).dedup

/-- The `for (let port = minPort; port <= maxPort; port++)` scan in
`findNextAvailablePort`, with the number of remaining candidate ports as
fuel: returns the first `port` not in `used`, or `none` when the range is
exhausted. -/
def findFirstFree (used : List Nat) (port : Nat) : Nat → Option Nat
  | 0 => none
  | fuel + 1 => if port ∈ used then findFirstFree used (port + 1) fuel else some port

/-- `findNextAvailablePort(registry, portRange)` in ports.ts: scan the range
`[minPort, maxPort]` in ascending order and return the first port that is
not a key of `allocations`; throw a range-exhaustion error when every port
in the range is used. -/
def findNextAvailablePort (registry : PortRegistry) (portRange : Nat × Nat) :
    Except PortError Nat :=
  match findFirstFree (usedPorts registry) portRange.1 (portRange.2 + 1 - portRange.1) with
  | some p => .ok p
  | none => .error (.exhaustedRange portRange.1 portRange.2 (usedPorts registry).length)

/-- The allocation record stored for one variable in `allocatePorts`. -/
def allocEntry (projectPath envName varName timestamp : String) : PortAllocation :=
  { project := projectPath, environment := envName,
    varName := varName, allocatedAt := timestamp }

/-- The in-memory update `registry.allocations[String(port)] = {...}` inside
the loop of `allocatePorts`. -/
def allocInsert (registry : PortRegistry) (port : Nat) (a : PortAllocation) :
    PortRegistry :=
  { registry with allocations := recordSet registry.allocations port a }

/-- The `for (const varName of varNames)` loop of `allocatePorts`: for each
variable in input order, find the next available port, record the allocation
under that port in the in-memory registry, and remember the
`(varName, port)` assignment.  Returns the ordered list of assignments (one
per occurrence) together with the final in-memory registry, or the first
error thrown by `findNextAvailablePort`. -/
def allocLoop (projectPath envName timestamp : String) (portRange : Nat × Nat) :
    List String → PortRegistry → Except PortError (List (String × Nat) × PortRegistry)
  | [], registry => .ok ([], registry)
  | varName :: rest, registry =>
    match findNextAvailablePort registry portRange with
    | .error e => .error e
    | .ok port =>
      match allocLoop projectPath envName timestamp portRange rest
          (allocInsert registry port
            (allocEntry projectPath envName varName timestamp)) with
      | .error e => .error e
      | .ok (restAssigned, finalRegistry) =>
        .ok ((varName, port) :: restAssigned, finalRegistry)

/-- The `allocatedPorts` record built by `allocatePorts` via successive
`allocatedPorts[varName] = port` assignments (later occurrences of a
duplicated name overwrite earlier ones). -/
def assignedRecord (assigned : List (String × Nat)) : List (String × Nat) :=
  assigned.foldl (fun m pr => recordSet m pr.1 pr.2) []

/-- The outcome of one `allocatePorts` call: its return value (or thrown
error), the resulting state of the registry file, and whether
`writeRegistry` ran. -/
structure AllocateOutcome where
  result : Except PortError (List (String × Nat))
  fs : FileState
  wrote : Bool
  deriving Repr

/-- `allocatePorts(projectPath, envName, varNames, portRange)` in ports.ts.
The timestamp `new Date().toISOString()` is computed once, before the loop,
and is modelled as the `timestamp` argument supplied by the ambient clock.
On any thrown error (storage or exhaustion) the function aborts before
`writeRegistry`, leaving the file untouched; on success the updated registry
is persisted in a single write. -/
def allocatePorts (fs : FileState) (projectPath envName : String)
    (varNames : List String) (portRange : Nat × Nat) (timestamp : String) :
    AllocateOutcome :=
  match readRegistry fs with
  | .error e => ⟨.error e, fs, false⟩
  | .ok registry =>
    match allocLoop projectPath envName timestamp portRange varNames registry with
    | .error e => ⟨.error e, fs, false⟩
    | .ok (assigned, registry') =>
      ⟨.ok (assignedRecord assigned), writeRegistry registry', true⟩

/-- Whether an allocation record belongs to the given
(projectPath, envName) pair — the strict `===` comparisons in
`releasePorts`. -/
def releaseMatches (a : PortAllocation) (projectPath envName : String) : Bool :=
  a.project == projectPath && a.environment == envName

/-- The number of allocations `releasePorts` removes. -/
def matchCount (registry : PortRegistry) (projectPath envName : String) : Nat :=
  (registry.allocations.filter (fun pr => releaseMatches pr.2 projectPath envName)).length

/-- The outcome of one `releasePorts` call: the returned count (or the error
a failed read throws), the resulting file state, and whether `writeRegistry`
ran. -/
structure ReleaseOutcome where
  result : Except PortError Nat
  fs : FileState
  wrote : Bool
  deriving Repr

/-- `releasePorts(projectPath, envName)` in ports.ts: deletes every
allocation whose `project` and `environment` both match exactly (iterating
over a snapshot of the entries, so the deletions are sound), returns the
number deleted, and persists only when at least one record was removed. -/
def releasePorts (fs : FileState) (projectPath envName : String) : ReleaseOutcome :=
  match readRegistry fs with
  | .error e => ⟨.error e, fs, false⟩
  | .ok registry =>
    if 0 < matchCount registry projectPath envName then
      ⟨.ok (matchCount registry projectPath envName),
        writeRegistry
          { registry with
            allocations := registry.allocations.filter
              (fun pr => !releaseMatches pr.2 projectPath envName) },
        true⟩
    else
      ⟨.ok (matchCount registry projectPath envName), fs, false⟩

/-- The allocations held in a stored registry file (empty for a missing or
unreadable file); used to state invariants over operation sequences. -/
def storedAllocs : FileState → List (Nat × PortAllocation)
  | .stored r => r.allocations
  | _ => []

/-- The port keys held in a stored registry file. -/
def storedKeys (fs : FileState) : List Nat :=
  (storedAllocs fs).map Prod.fst

/-- One registry operation, as issued by a caller of the service. -/
inductive Op where
  | allocate (projectPath envName : String) (varNames : List String)
      (portRange : Nat × Nat) (timestamp : String)
  | release (projectPath envName : String)

/-- The effect of one operation on the registry file. -/
def applyOp (fs : FileState) : Op → FileState
  | .allocate p e vs range ts => (allocatePorts fs p e vs range ts).fs
  | .release p e => (releasePorts fs p e).fs

/-- The registry file after a sequence of operations. -/
def runOps (fs : FileState) (ops : List Op) : FileState :=
  ops.foldl applyOp fs

/-! ## Properties of the port scan -/

theorem findFirstFree_eq_some (used : List Nat) :
    ∀ (fuel port p : Nat), findFirstFree used port fuel = some p →
      p ∉ used ∧ port ≤ p ∧ p < port + fuel ∧
        ∀ q, port ≤ q → q < p → q ∈ used := by
  intro fuel
  induction fuel with
  | zero =>
    intro port p h
    simp [findFirstFree] at h
  | succ n ih =>
    intro port p h
    rw [findFirstFree] at h
    by_cases hm : port ∈ used
    · rw [if_pos hm] at h
      obtain ⟨h1, h2, h3, h4⟩ := ih (port + 1) p h
      refine ⟨h1, by omega, by omega, fun q hq1 hq2 => ?_⟩
      rcases Nat.eq_or_lt_of_le hq1 with heq | hlt
      · exact heq ▸ hm
      · exact h4 q hlt hq2
    · rw [if_neg hm] at h
      obtain rfl : port = p := Option.some.inj h
      exact ⟨hm, Nat.le_refl _, by omega, fun q hq1 hq2 => absurd hq2 (by omega)⟩

theorem findFirstFree_eq_none (used : List Nat) :
    ∀ (fuel port : Nat), findFirstFree used port fuel = none →
      ∀ q, port ≤ q → q < port + fuel → q ∈ used := by
  intro fuel
  induction fuel with
  | zero =>
    intro port _ q hq1 hq2
    exact absurd hq2 (by omega)
  | succ n ih =>
    intro port h q hq1 hq2
    rw [findFirstFree] at h
    by_cases hm : port ∈ used
    · rw [if_pos hm] at h
      rcases Nat.eq_or_lt_of_le hq1 with heq | hlt
      · exact heq ▸ hm
      · exact ih (port + 1) h q hlt (by omega)
    · rw [if_neg hm] at h
      exact Option.noConfusion h

theorem mem_usedPorts (registry : PortRegistry) (q : Nat) :
    q ∈ usedPorts registry ↔ q ∈ registry.allocations.map Prod.fst := by
  simp [usedPorts, List.mem_dedup]

/-- Specification of a successful `findNextAvailablePort`: the returned port
lies in the range, is not a key of `allocations`, and every smaller in-range
port is already a key (ascending first-fit). -/
theorem findNextAvailablePort_ok (registry : PortRegistry) (portRange : Nat × Nat)
    (p : Nat) (h : findNextAvailablePort registry portRange = .ok p) :
    portRange.1 ≤ p ∧ p ≤ portRange.2 ∧ p ∉ registry.allocations.map Prod.fst ∧
      ∀ q, portRange.1 ≤ q → q < p → q ∈ registry.allocations.map Prod.fst := by
  unfold findNextAvailablePort at h
  cases hf : findFirstFree (usedPorts registry) portRange.1
      (portRange.2 + 1 - portRange.1) with
  | none => rw [hf] at h; exact Except.noConfusion h
  | some p' =>
    rw [hf] at h
    obtain rfl : p' = p := by simpa using h
    obtain ⟨h1, h2, h3, h4⟩ := findFirstFree_eq_some (usedPorts registry) _ _ _ hf
    refine ⟨h2, by omega, ?_, fun q hq1 hq2 => ?_⟩
    · rw [← mem_usedPorts]; exact h1
    · rw [← mem_usedPorts]; exact h4 q hq1 hq2

/-- Specification of a failing `findNextAvailablePort`: the thrown error is
the range-exhaustion error for this range, and every in-range port is
already a key of `allocations`. -/
theorem findNextAvailablePort_error (registry : PortRegistry) (portRange : Nat × Nat)
    (e : PortError) (h : findNextAvailablePort registry portRange = .error e) :
    e = .exhaustedRange portRange.1 portRange.2 (usedPorts registry).length ∧
      ∀ q, portRange.1 ≤ q → q ≤ portRange.2 →
        q ∈ registry.allocations.map Prod.fst := by
  unfold findNextAvailablePort at h
  cases hf : findFirstFree (usedPorts registry) portRange.1
      (portRange.2 + 1 - portRange.1) with
  | none =>
    rw [hf] at h
    refine ⟨by simpa using h.symm, fun q hq1 hq2 => ?_⟩
    rw [← mem_usedPorts]
    exact findFirstFree_eq_none (usedPorts registry) _ _ hf q hq1 (by omega)
  | some p' => rw [hf] at h; exact Except.noConfusion h

/-! ## Properties of JavaScript record assignment -/

theorem recordSet_of_not_mem {α : Type} [DecidableEq α] {β : Type}
    (m : List (α × β)) (k : α) (v : β) (h : k ∉ m.map Prod.fst) :
    recordSet m k v = m ++ [(k, v)] := by
  unfold recordSet
  rw [if_neg h]

theorem recordSet_keys {α : Type} [DecidableEq α] {β : Type}
    (m : List (α × β)) (k : α) (v : β) :
    (recordSet m k v).map Prod.fst =
      if k ∈ m.map Prod.fst then m.map Prod.fst else m.map Prod.fst ++ [k] := by
  unfold recordSet
  by_cases h : k ∈ m.map Prod.fst
  · rw [if_pos h, if_pos h, List.map_map]
    refine List.map_congr_left fun p _ => ?_
    by_cases hp : p.1 = k
    · simp [hp]
    · simp [hp]
  · rw [if_neg h, if_neg h]
    simp

theorem mem_keys_recordSet {α : Type} [DecidableEq α] {β : Type}
    (m : List (α × β)) (k : α) (v : β) (k' : α) :
    k' ∈ (recordSet m k v).map Prod.fst ↔ (k' ∈ m.map Prod.fst ∨ k' = k) := by
  rw [recordSet_keys]
  by_cases h : k ∈ m.map Prod.fst
  · rw [if_pos h]
    constructor
    · exact Or.inl
    · rintro (h1 | rfl)
      · exact h1
      · exact h
  · rw [if_neg h]
    simp

theorem nodup_keys_recordSet {α : Type} [DecidableEq α] {β : Type}
    (m : List (α × β)) (k : α) (v : β) (h : (m.map Prod.fst).Nodup) :
    ((recordSet m k v).map Prod.fst).Nodup := by
  rw [recordSet_keys]
  by_cases hk : k ∈ m.map Prod.fst
  · rw [if_pos hk]; exact h
  · rw [if_neg hk]
    rw [List.nodup_append]
    exact ⟨h, List.nodup_singleton k, by simpa using hk⟩

theorem mem_recordSet {α : Type} [DecidableEq α] {β : Type}
    {m : List (α × β)} {k : α} {v : β} {x : α × β}
    (h : x ∈ recordSet m k v) : x ∈ m ∨ x = (k, v) := by
  unfold recordSet at h
  by_cases hk : k ∈ m.map Prod.fst
  · rw [if_pos hk] at h
    obtain ⟨p, hp, hfx⟩ := List.mem_map.1 h
    by_cases hp1 : p.1 = k
    · right
      rw [← hfx, if_pos hp1]
    · left
      rw [← hfx, if_neg hp1]
      exact hp
  · rw [if_neg hk] at h
    rcases List.mem_append.1 h with h1 | h2
    · exact Or.inl h1
    · exact Or.inr (by simpa using h2)

/-! ## The allocation loop -/

/-- Master specification of a successful allocation loop: the final registry
is the initial one with exactly one freshly-keyed record appended per
requested variable occurrence (all sharing the call's single timestamp), the
assignments list the variables in input order, and the assigned ports are
pairwise distinct and distinct from every pre-existing key. -/
theorem allocLoop_ok (projectPath envName timestamp : String) (portRange : Nat × Nat) :
    ∀ (varNames : List String) (registry : PortRegistry)
      (assigned : List (String × Nat)) (registry' : PortRegistry),
      allocLoop projectPath envName timestamp portRange varNames registry =
        .ok (assigned, registry') →
      registry'.version = registry.version ∧
      registry'.allocations = registry.allocations ++
        assigned.map (fun pr => (pr.2, allocEntry projectPath envName pr.1 timestamp)) ∧
      assigned.map Prod.fst = varNames ∧
      (∀ q ∈ assigned.map Prod.snd, q ∉ registry.allocations.map Prod.fst) ∧
      (assigned.map Prod.snd).Nodup := by
  intro varNames
  induction varNames with
  | nil =>
    intro registry assigned registry' h
    rw [allocLoop] at h
    obtain ⟨rfl, rfl⟩ : assigned = [] ∧ registry' = registry := by
      simpa [eq_comm] using h
    simp
  | cons v rest ih =>
    intro registry assigned registry' h
    rw [allocLoop] at h
    split at h
    · exact Except.noConfusion h
    · rename_i port hf
      split at h
      · exact Except.noConfusion h
      · rename_i restAssigned finalRegistry hr
        obtain ⟨rfl, rfl⟩ : assigned = (v, port) :: restAssigned ∧
            registry' = finalRegistry := by
          simpa [eq_comm] using h
        obtain ⟨hp1, hp2, hp3, hp4⟩ :=
          findNextAvailablePort_ok registry portRange port hf
        obtain ⟨ihv, iha, ihn, ihf, ihd⟩ := ih _ restAssigned registry' hr
        have hset : (allocInsert registry port
            (allocEntry projectPath envName v timestamp)).allocations =
            registry.allocations ++ [(port, allocEntry projectPath envName v timestamp)] := by
          unfold allocInsert
          exact recordSet_of_not_mem _ _ _ hp3
        have hkeys : (allocInsert registry port
            (allocEntry projectPath envName v timestamp)).allocations.map Prod.fst =
            registry.allocations.map Prod.fst ++ [port] := by
          rw [hset]; simp
        refine ⟨?_, ?_, ?_, ?_, ?_⟩
        · rw [ihv]; rfl
        · rw [iha, hset]
          simp
        · simp [ihn]
        · intro q hq
          simp only [List.map_cons, List.mem_cons] at hq
          rcases hq with rfl | hq
          · exact hp3
          · have h5 := ihf q hq
            rw [hkeys] at h5
            exact fun hmem => h5 (List.mem_append_left _ hmem)
        · simp only [List.map_cons, List.nodup_cons]
          refine ⟨fun hmem => ?_, ihd⟩
          have h5 := ihf port hmem
          rw [hkeys] at h5
          exact h5 (List.mem_append_right _ (by simp))

/-- A failing allocation loop only ever propagates the range-exhaustion
error thrown by `findNextAvailablePort`. -/
theorem allocLoop_error (projectPath envName timestamp : String) (portRange : Nat × Nat) :
    ∀ (varNames : List String) (registry : PortRegistry) (e : PortError),
      allocLoop projectPath envName timestamp portRange varNames registry = .error e →
      ∃ cnt, e = .exhaustedRange portRange.1 portRange.2 cnt := by
  intro varNames
  induction varNames with
  | nil =>
    intro registry e h
    rw [allocLoop] at h
    exact Except.noConfusion h
  | cons v rest ih =>
    intro registry e h
    rw [allocLoop] at h
    split at h
    · rename_i e' hf
      obtain rfl : e' = e := by simpa using h
      exact ⟨_, (findNextAvailablePort_error registry portRange _ hf).1⟩
    · rename_i port hf
      split at h
      · rename_i e' hr
        obtain rfl : e' = e := by simpa using h
        exact ih _ _ hr
      · exact Except.noConfusion h

/-! ## The returned `allocatedPorts` record -/

theorem mem_keys_foldl_recordSet {α : Type} [DecidableEq α] {β : Type} :
    ∀ (l : List (α × β)) (init : List (α × β)) (k : α),
      (k ∈ (l.foldl (fun m pr => recordSet m pr.1 pr.2) init).map Prod.fst) ↔
        (k ∈ init.map Prod.fst ∨ k ∈ l.map Prod.fst) := by
  intro l
  induction l with
  | nil =>
    intro init k
    simp
  | cons pr rest ih =>
    intro init k
    simp only [List.foldl_cons, List.map_cons, List.mem_cons]
    rw [ih, mem_keys_recordSet]
    tauto

theorem nodup_keys_foldl_recordSet {α : Type} [DecidableEq α] {β : Type} :
    ∀ (l : List (α × β)) (init : List (α × β)),
      (init.map Prod.fst).Nodup →
      ((l.foldl (fun m pr => recordSet m pr.1 pr.2) init).map Prod.fst).Nodup := by
  intro l
  induction l with
  | nil =>
    intro init h
    simpa using h
  | cons pr rest ih =>
    intro init h
    simp only [List.foldl_cons]
    exact ih _ (nodup_keys_recordSet _ _ _ h)

theorem mem_foldl_recordSet {α : Type} [DecidableEq α] {β : Type} :
    ∀ (l : List (α × β)) (init : List (α × β)) (x : α × β),
      x ∈ l.foldl (fun m pr => recordSet m pr.1 pr.2) init → x ∈ init ∨ x ∈ l := by
  intro l
  induction l with
  | nil =>
    intro init x h
    exact Or.inl (by simpa using h)
  | cons pr rest ih =>
    intro init x h
    simp only [List.foldl_cons] at h
    rcases ih _ _ h with h1 | h2
    · rcases mem_recordSet h1 with h3 | h4
      · exact Or.inl h3
      · right
        rw [h4]
        simp
    · exact Or.inr (List.mem_cons_of_mem _ h2)

theorem assignedRecord_keys_nodup (assigned : List (String × Nat)) :
    ((assignedRecord assigned).map Prod.fst).Nodup :=
  nodup_keys_foldl_recordSet assigned [] (by simp)

theorem mem_assignedRecord_keys (assigned : List (String × Nat)) (k : String) :
    k ∈ (assignedRecord assigned).map Prod.fst ↔ k ∈ assigned.map Prod.fst := by
  rw [assignedRecord, mem_keys_foldl_recordSet]
  simp

theorem mem_assignedRecord (assigned : List (String × Nat)) (x : String × Nat)
    (h : x ∈ assignedRecord assigned) : x ∈ assigned := by
  rcases mem_foldl_recordSet assigned [] x h with h1 | h2
  · simp at h1
  · exact h2

/-! ## Preservation of key uniqueness by whole operations -/

/-- Any successful `allocatePorts` run extends the loaded registry's key
list by the freshly assigned ports, preserving key uniqueness. -/
theorem storedKeys_nodup_applyOp (fs : FileState) (op : Op)
    (h : (storedKeys fs).Nodup) : (storedKeys (applyOp fs op)).Nodup := by
  cases op with
  | allocate p e vs range ts =>
    show (storedKeys (allocatePorts fs p e vs range ts).fs).Nodup
    unfold allocatePorts
    split
    · exact h
    · rename_i registry hread
      split
      · exact h
      · rename_i assigned registry' hloop
        obtain ⟨_, halloc, _, hfresh, hnodup⟩ :=
          allocLoop_ok p e ts range vs registry assigned registry' hloop
        have hkeys : registry'.allocations.map Prod.fst =
            registry.allocations.map Prod.fst ++ assigned.map Prod.snd := by
          rw [halloc]
          simp [List.map_map]
        have hreg : (registry.allocations.map Prod.fst).Nodup := by
          cases fs with
          | absent =>
            obtain rfl : createEmptyRegistry = registry := by
              simpa [readRegistry] using hread
            simp [createEmptyRegistry]
          | corrupt => exact Except.noConfusion hread
          | stored r =>
            obtain rfl : r = registry := by simpa [readRegistry] using hread
            exact h
        show (registry'.allocations.map Prod.fst).Nodup
        rw [hkeys, List.nodup_append]
        exact ⟨hreg, hnodup, fun q hq1 hq2 => hfresh q hq2 hq1⟩
  | release p e =>
    show (storedKeys (releasePorts fs p e).fs).Nodup
    unfold releasePorts
    split
    · exact h
    · rename_i registry hread
      split
      · have hreg : (registry.allocations.map Prod.fst).Nodup := by
          cases fs with
          | absent =>
            obtain rfl : createEmptyRegistry = registry := by
              simpa [readRegistry] using hread
            simp [createEmptyRegistry]
          | corrupt => exact Except.noConfusion hread
          | stored r =>
            obtain rfl : r = registry := by simpa [readRegistry] using hread
            exact h
        show ((registry.allocations.filter
            (fun pr => !releaseMatches pr.2 p e)).map Prod.fst).Nodup
        exact ((List.filter_sublist _).map Prod.fst).nodup hreg
      · exact h

theorem storedKeys_nodup_runOps (ops : List Op) :
    ∀ (fs : FileState), (storedKeys fs).Nodup → (storedKeys (runOps fs ops)).Nodup := by
  induction ops with
  | nil =>
    intro fs h
    exact h
  | cons op rest ih =>
    intro fs h
    exact ih _ (storedKeys_nodup_applyOp fs op h)

/-! ## Computation helpers -/

theorem allocatePorts_eq_of_read (fs : FileState) (projectPath envName : String)
    (varNames : List String) (portRange : Nat × Nat) (timestamp : String)
    (registry : PortRegistry) (hread : readRegistry fs = .ok registry) :
    allocatePorts fs projectPath envName varNames portRange timestamp =
      match allocLoop projectPath envName timestamp portRange varNames registry with
      | .error e => ⟨.error e, fs, false⟩
      | .ok (assigned, registry') =>
        ⟨.ok (assignedRecord assigned), writeRegistry registry', true⟩ := by
  unfold allocatePorts
  rw [hread]

theorem releasePorts_stored (registry : PortRegistry) (projectPath envName : String) :
    releasePorts (.stored registry) projectPath envName =
      if 0 < matchCount registry projectPath envName then
        ⟨.ok (matchCount registry projectPath envName),
          .stored { registry with
            allocations := registry.allocations.filter
              (fun pr => !releaseMatches pr.2 projectPath envName) },
          true⟩
      else
        ⟨.ok (matchCount registry projectPath envName), .stored registry, false⟩ :=
  rfl

theorem releaseMatches_eq_true (a : PortAllocation) (projectPath envName : String) :
    releaseMatches a projectPath envName = true ↔
      (a.project = projectPath ∧ a.environment = envName) := by
  simp [releaseMatches, Bool.and_eq_true, beq_iff_eq]

/-! ## Concrete scenarios from the specification's testable properties -/

/-- P2: three variables allocated for (project A, env "one") on an empty
registry. -/
def specP2 : AllocateOutcome :=
  allocatePorts .absent "/projA" "one" ["HTTP_PORT", "DB_PORT", "REDIS_PORT"]
    DEFAULT_PORT_RANGE "t1"

/-- P3: one further variable allocated for (project A, env "two"). -/
def specP3 : AllocateOutcome :=
  allocatePorts specP2.fs "/projA" "two" ["HTTP_PORT"] DEFAULT_PORT_RANGE "t2"

/-- P4, release step: tearing down (project A, env "one"). -/
def specP4rel : ReleaseOutcome :=
  releasePorts specP3.fs "/projA" "one"

/-- P4, reuse step: a fresh allocation after the release. -/
def specP4alloc : AllocateOutcome :=
  allocatePorts specP4rel.fs "/projA" "three" ["HTTP_PORT"] DEFAULT_PORT_RANGE "t3"

/-- P7: a registry in which both ports of the range [30000, 30001] are
already allocated. -/
def regP7 : PortRegistry :=
  { version := 1,
    allocations := [(30000, allocEntry "/p" "x" "A" "t0"),
                    (30001, allocEntry "/p" "x" "B" "t0")] }

/-- The registry produced by allocating the duplicated list `["A", "A"]` on
an empty registry: each occurrence receives its own slot. -/
def regDup : PortRegistry :=
  { version := 1,
    allocations := [(30000, allocEntry "/p" "e" "A" "t"),
                    (30001, allocEntry "/p" "e" "A" "t")] }

/-! ## The claims -/

/-- C1: for every call to `allocatePorts` in which some requested variable
finds no free port in the inclusive range (the allocation loop throws), the
operation fails with the range-exhaustion (ExhaustedRange) error and the
persisted registry file is left exactly as it was before the call, with no
write performed: no allocation of that call — including the ones earlier
variables of the same call had found — is committed. -/
theorem C1_exhaustion_all_or_nothing
    (fs : FileState) (projectPath envName timestamp : String)
    (varNames : List String) (portRange : Nat × Nat)
    (registry : PortRegistry) (e : PortError)
    (hread : readRegistry fs = .ok registry)
    (hloop : allocLoop projectPath envName timestamp portRange varNames registry =
      .error e) :
    (∃ cnt, e = .exhaustedRange portRange.1 portRange.2 cnt) ∧
      allocatePorts fs projectPath envName varNames portRange timestamp =
        ⟨.error e, fs, false⟩ := by
  refine ⟨allocLoop_error _ _ _ _ _ _ _ hloop, ?_⟩
  rw [allocatePorts_eq_of_read fs projectPath envName varNames portRange timestamp
    registry hread, hloop]

/-- C1 witness: the P7 scenario — range [30000, 30001] fully allocated,
requesting `["A", "B", "C"]` fails with ExhaustedRange and leaves the
stored registry untouched, performing no write. -/
theorem C1_witness :
    (∃ cnt, PortError.exhaustedRange 30000 30001 2 =
      .exhaustedRange (30000, 30001).1 (30000, 30001).2 cnt) ∧
      allocatePorts (.stored regP7) "/q" "y" ["A", "B", "C"] (30000, 30001) "t1" =
        ⟨.error (.exhaustedRange 30000 30001 2), .stored regP7, false⟩ :=
  C1_exhaustion_all_or_nothing (.stored regP7) "/q" "y" "t1" ["A", "B", "C"]
    (30000, 30001) regP7 (.exhaustedRange 30000 30001 2) rfl (by rfl)

/-- C2: starting from the empty registry, after any sequence of Allocate
and Release operations each port number is a key of at most one live
allocation (the stored key list has no duplicates); moreover a single
successful allocation loop never assigns the same port to two of its
variables and never assigns a port already held in the registry it started
from. -/
theorem C2_port_uniqueness :
    (∀ ops : List Op, (storedKeys (runOps .absent ops)).Nodup) ∧
    (∀ (projectPath envName timestamp : String) (portRange : Nat × Nat)
        (varNames : List String) (registry : PortRegistry)
        (assigned : List (String × Nat)) (registry' : PortRegistry),
      allocLoop projectPath envName timestamp portRange varNames registry =
        .ok (assigned, registry') →
      (assigned.map Prod.snd).Nodup ∧
        ∀ q ∈ assigned.map Prod.snd, q ∉ registry.allocations.map Prod.fst) := by
  constructor
  · intro ops
    exact storedKeys_nodup_runOps ops .absent (by simp [storedKeys, storedAllocs])
  · intro projectPath envName timestamp portRange varNames registry assigned registry' h
    obtain ⟨_, _, _, hfresh, hnodup⟩ :=
      allocLoop_ok projectPath envName timestamp portRange varNames registry
        assigned registry' h
    exact ⟨hnodup, hfresh⟩

/-- C2 witness: a concrete operation sequence keeps the stored keys
duplicate-free, and a concrete two-variable allocation assigns distinct
fresh ports. -/
theorem C2_witness :
    (storedKeys (runOps .absent
      [.allocate "/projA" "one" ["HTTP_PORT", "DB_PORT"] (30000, 39999) "t1",
       .release "/projA" "one",
       .allocate "/projB" "x" ["A"] (30000, 39999) "t2"])).Nodup ∧
    ((([("A", 30000), ("B", 30001)] : List (String × Nat)).map Prod.snd).Nodup ∧
      ∀ q ∈ (([("A", 30000), ("B", 30001)] : List (String × Nat)).map Prod.snd),
        q ∉ createEmptyRegistry.allocations.map Prod.fst) :=
  ⟨C2_port_uniqueness.1 _,
    C2_port_uniqueness.2 "/p" "e" "t" (30000, 39999) ["A", "B"] createEmptyRegistry
      [("A", 30000), ("B", 30001)]
      ⟨1, [(30000, allocEntry "/p" "e" "A" "t"), (30001, allocEntry "/p" "e" "B" "t")]⟩
      (by rfl)⟩

/-- C3: `findNextAvailablePort` is strictly-ascending first-fit — a
returned port is in range, free, and every smaller in-range port is
used — and concretely, allocating `["HTTP_PORT", "DB_PORT", "REDIS_PORT"]`
on an empty registry with the default range [30000, 39999] yields exactly
30000, 30001, 30002, and a subsequent single-variable allocation yields
30003. -/
theorem C3_first_fit :
    (∀ (registry : PortRegistry) (portRange : Nat × Nat) (p : Nat),
      findNextAvailablePort registry portRange = .ok p →
      portRange.1 ≤ p ∧ p ≤ portRange.2 ∧
        p ∉ registry.allocations.map Prod.fst ∧
        ∀ q, portRange.1 ≤ q → q < p → q ∈ registry.allocations.map Prod.fst) ∧
    specP2.result =
      .ok [("HTTP_PORT", 30000), ("DB_PORT", 30001), ("REDIS_PORT", 30002)] ∧
    specP3.result = .ok [("HTTP_PORT", 30003)] :=
  ⟨findNextAvailablePort_ok, by rfl, by rfl⟩

/-- C3 witness: on the P7 registry (30000 and 30001 used) with range
[30000, 30002], the scan returns 30002, the lowest free port. -/
theorem C3_witness :
    30000 ≤ 30002 ∧ 30002 ≤ 30002 ∧
      (30002 : Nat) ∉ regP7.allocations.map Prod.fst ∧
      ∀ q, 30000 ≤ q → q < 30002 → q ∈ regP7.allocations.map Prod.fst :=
  C3_first_fit.1 regP7 (30000, 30002) 30002 (by rfl)

/-- C4: a successful `allocatePorts` returns a mapping with exactly one
entry per requested variable name (duplicate-free keys, covering exactly
the requested names), each requested occurrence — duplicates included —
receives its own slot in the registry, and every returned port is a fresh
key of the updated registry, unique within the entire registry. -/
theorem C4_one_port_per_name
    (fs : FileState) (projectPath envName timestamp : String)
    (varNames : List String) (portRange : Nat × Nat)
    (registry : PortRegistry) (m : List (String × Nat)) (registry' : PortRegistry)
    (hread : readRegistry fs = .ok registry)
    (hrun : allocatePorts fs projectPath envName varNames portRange timestamp =
      ⟨.ok m, .stored registry', true⟩) :
    (m.map Prod.fst).Nodup ∧
    (∀ v, v ∈ m.map Prod.fst ↔ v ∈ varNames) ∧
    registry'.allocations.length = registry.allocations.length + varNames.length ∧
    (∀ pr ∈ m, pr.2 ∈ registry'.allocations.map Prod.fst ∧
      pr.2 ∉ registry.allocations.map Prod.fst) ∧
    ((registry.allocations.map Prod.fst).Nodup →
      (registry'.allocations.map Prod.fst).Nodup) := by
  rw [allocatePorts_eq_of_read fs projectPath envName varNames portRange timestamp
    registry hread] at hrun
  split at hrun
  · exfalso
    have h1 := congrArg AllocateOutcome.result hrun
    simp at h1
  · rename_i assigned registry₁ hloop
    obtain ⟨hm, hreg⟩ : assignedRecord assigned = m ∧ registry₁ = registry' := by
      have h1 := congrArg AllocateOutcome.result hrun
      have h2 := congrArg AllocateOutcome.fs hrun
      simp only at h1 h2
      exact ⟨by simpa using h1, by simpa [writeRegistry] using h2⟩
    subst hm
    subst hreg
    obtain ⟨_, halloc, hnames, hfresh, hnodup⟩ :=
      allocLoop_ok projectPath envName timestamp portRange varNames registry
        assigned registry₁ hloop
    have hkeys : registry₁.allocations.map Prod.fst =
        registry.allocations.map Prod.fst ++ assigned.map Prod.snd := by
      rw [halloc]
      simp [List.map_map]
    refine ⟨assignedRecord_keys_nodup assigned, ?_, ?_, ?_, ?_⟩
    · intro v
      rw [mem_assignedRecord_keys, hnames]
    · rw [halloc]
      simp only [List.length_append, List.length_map]
      rw [← hnames, List.length_map]
    · intro pr hpr
      have hmem : pr ∈ assigned := mem_assignedRecord assigned pr hpr
      have hsnd : pr.2 ∈ assigned.map Prod.snd := List.mem_map_of_mem _ hmem
      constructor
      · rw [hkeys]
        exact List.mem_append_right _ hsnd
      · exact hfresh pr.2 hsnd
    · intro hn
      rw [hkeys, List.nodup_append]
      exact ⟨hn, hnodup, fun q hq1 hq2 => hfresh q hq2 hq1⟩

/-- C4 witness: allocating the duplicated list `["A", "A"]` on an empty
registry returns the single-entry mapping `{A: 30001}` while both
occurrences received their own registry slot (ports 30000 and 30001). -/
theorem C4_witness :
    ((([("A", 30001)] : List (String × Nat)).map Prod.fst).Nodup) ∧
    (∀ v, v ∈ (([("A", 30001)] : List (String × Nat)).map Prod.fst) ↔
      v ∈ ["A", "A"]) ∧
    regDup.allocations.length =
      createEmptyRegistry.allocations.length + (["A", "A"] : List String).length ∧
    (∀ pr ∈ ([("A", 30001)] : List (String × Nat)),
      pr.2 ∈ regDup.allocations.map Prod.fst ∧
        pr.2 ∉ createEmptyRegistry.allocations.map Prod.fst) ∧
    ((createEmptyRegistry.allocations.map Prod.fst).Nodup →
      (regDup.allocations.map Prod.fst).Nodup) :=
  C4_one_port_per_name .absent "/p" "e" "t" ["A", "A"] (30000, 39999)
    createEmptyRegistry [("A", 30001)] regDup rfl (by rfl)

/-- C5: contrary to the claim, a stored registry carrying a schema version
other than 1 is NOT rejected: `readRegistry` returns the parsed value
unchanged (the `as PortRegistry` cast checks nothing) and allocation
proceeds on it as if the content were understood. -/
theorem C5_unknown_version_accepted :
    readRegistry (.stored { version := 2, allocations := [] }) =
      .ok { version := 2, allocations := [] } ∧
    (allocatePorts (.stored { version := 2, allocations := [] })
      "/p" "e" ["A"] DEFAULT_PORT_RANGE "t").result = .ok [("A", 30000)] :=
  ⟨rfl, by rfl⟩

/-- C6: reading the registry distinguishes the storage cases — a missing
file yields the empty registry (version 1, no allocations), while an
existing unparsable file makes the read fail with the storage error, which
every operation surfaces to the caller unchanged instead of proceeding on
an empty registry (no write happens either). -/
theorem C6_storage_cases :
    readRegistry .absent = .ok createEmptyRegistry ∧
    readRegistry .corrupt = .error .storageError ∧
    (∀ (projectPath envName : String) (varNames : List String)
        (portRange : Nat × Nat) (timestamp : String),
      allocatePorts .corrupt projectPath envName varNames portRange timestamp =
        ⟨.error .storageError, .corrupt, false⟩) ∧
    (∀ projectPath envName : String,
      releasePorts .corrupt projectPath envName =
        ⟨.error .storageError, .corrupt, false⟩) :=
  ⟨rfl, rfl, fun _ _ _ _ _ => rfl, fun _ _ => rfl⟩

/-- C6 witness: concrete operations on a corrupt registry file surface the
storage error and leave the file untouched. -/
theorem C6_witness :
    allocatePorts .corrupt "/p" "e" ["A"] DEFAULT_PORT_RANGE "t" =
      ⟨.error .storageError, .corrupt, false⟩ ∧
    releasePorts .corrupt "/p" "e" = ⟨.error .storageError, .corrupt, false⟩ :=
  ⟨C6_storage_cases.2.2.1 "/p" "e" ["A"] DEFAULT_PORT_RANGE "t",
    C6_storage_cases.2.2.2 "/p" "e"⟩

/-- C7: a freed in-range port is immediately eligible: whenever some
in-range port is not a key of the registry, `findNextAvailablePort`
succeeds with a port no greater than it; concretely, after the P2/P3
allocations, releasing (project A, "one") returns count 3 and the next
allocation yields 30000 — the lowest freed port — rather than 30004. -/
theorem C7_release_reuse :
    (∀ (registry : PortRegistry) (portRange : Nat × Nat) (q : Nat),
      portRange.1 ≤ q → q ≤ portRange.2 → q ∉ registry.allocations.map Prod.fst →
      ∃ p, findNextAvailablePort registry portRange = .ok p ∧ p ≤ q) ∧
    specP4rel.result = .ok 3 ∧
    specP4alloc.result = .ok [("HTTP_PORT", 30000)] := by
  refine ⟨?_, by rfl, by rfl⟩
  intro registry portRange q h1 h2 h3
  cases hf : findNextAvailablePort registry portRange with
  | error e =>
    obtain ⟨_, hall⟩ := findNextAvailablePort_error registry portRange e hf
    exact absurd (hall q h1 h2) h3
  | ok p =>
    obtain ⟨_, _, _, hmin⟩ := findNextAvailablePort_ok registry portRange p hf
    refine ⟨p, rfl, ?_⟩
    by_contra hlt
    push_neg at hlt
    exact h3 (hmin q h1 hlt)

/-- C7 witness: on the P7 registry the free port 30002 guarantees a
successful scan returning a port at most 30002. -/
theorem C7_witness :
    ∃ p, findNextAvailablePort regP7 (30000, 30005) = .ok p ∧ p ≤ 30002 :=
  C7_release_reuse.1 regP7 (30000, 30005) 30002 (by decide) (by decide) (by decide)

/-- C8: on any registry state, `releasePorts` never fails: it returns the
number of allocations whose project and environment both match the
arguments exactly (case-sensitively, via string equality), the surviving
allocations are exactly the non-matching ones, and when zero records match
the file is left untouched with no write performed. -/
theorem C8_release_exact (registry : PortRegistry) (projectPath envName : String) :
    (releasePorts (.stored registry) projectPath envName).result =
      .ok (matchCount registry projectPath envName) ∧
    (∀ pr : Nat × PortAllocation,
      pr ∈ storedAllocs ((releasePorts (.stored registry) projectPath envName).fs) ↔
        (pr ∈ registry.allocations ∧
          ¬(pr.2.project = projectPath ∧ pr.2.environment = envName))) ∧
    (matchCount registry projectPath envName = 0 →
      (releasePorts (.stored registry) projectPath envName).fs = .stored registry ∧
      (releasePorts (.stored registry) projectPath envName).wrote = false) ∧
    (0 < matchCount registry projectPath envName →
      (releasePorts (.stored registry) projectPath envName).wrote = true) := by
  rw [releasePorts_stored]
  by_cases hc : 0 < matchCount registry projectPath envName
  · rw [if_pos hc]
    refine ⟨rfl, ?_, fun h0 => absurd h0 (by omega), fun _ => rfl⟩
    intro pr
    show pr ∈ registry.allocations.filter
        (fun pr => !releaseMatches pr.2 projectPath envName) ↔ _
    rw [List.mem_filter]
    rw [Bool.not_eq_true']
    rw [← Bool.not_eq_true, releaseMatches_eq_true]
  · rw [if_neg hc]
    have h0 : matchCount registry projectPath envName = 0 := by omega
    have hnone : ∀ pr ∈ registry.allocations,
        ¬(pr.2.project = projectPath ∧ pr.2.environment = envName) := by
      intro pr hpr
      rw [← releaseMatches_eq_true]
      have := List.length_eq_zero.1 h0
      intro hmatch
      have : pr ∈ registry.allocations.filter
          (fun pr => releaseMatches pr.2 projectPath envName) := by
        rw [List.mem_filter]
        exact ⟨hpr, hmatch⟩
      rw [List.length_eq_zero.1 h0] at this
      exact List.not_mem_nil pr this
    refine ⟨rfl, ?_, fun _ => ⟨rfl, rfl⟩, fun h => absurd h0 (by omega)⟩
    intro pr
    show pr ∈ registry.allocations ↔ _
    exact ⟨fun h => ⟨h, hnone pr h⟩, fun h => h.1⟩

/-- C8 witness: releasing an unknown pair from the P7 registry removes
nothing and performs no write, while releasing the pair that holds both
ports does write. -/
theorem C8_witness :
    ((releasePorts (.stored regP7) "/nobody" "none").fs = .stored regP7 ∧
      (releasePorts (.stored regP7) "/nobody" "none").wrote = false) ∧
    (releasePorts (.stored regP7) "/p" "x").wrote = true :=
  ⟨(C8_release_exact regP7 "/nobody" "none").2.2.1 (by rfl),
    (C8_release_exact regP7 "/p" "x").2.2.2 (by decide)⟩

/-- C9: all allocation records created by a single allocation loop carry
the identical `allocatedAt` string — the timestamp computed once before any
port is assigned. -/
theorem C9_single_timestamp
    (projectPath envName timestamp : String) (portRange : Nat × Nat)
    (varNames : List String) (registry : PortRegistry)
    (assigned : List (String × Nat)) (registry' : PortRegistry)
    (hloop : allocLoop projectPath envName timestamp portRange varNames registry =
      .ok (assigned, registry')) :
    ∀ pr ∈ registry'.allocations, pr ∉ registry.allocations →
      pr.2.allocatedAt = timestamp := by
  obtain ⟨_, halloc, _, _, _⟩ :=
    allocLoop_ok projectPath envName timestamp portRange varNames registry
      assigned registry' hloop
  intro pr hmem hnot
  rw [halloc] at hmem
  rcases List.mem_append.1 hmem with h1 | h2
  · exact absurd h1 hnot
  · obtain ⟨x, _, rfl⟩ := List.mem_map.1 h2
    rfl

/-- C9 witness: the record created by a concrete one-variable allocation on
the empty registry carries the call's timestamp. -/
theorem C9_witness : (allocEntry "/p" "e" "A" "t9").allocatedAt = "t9" :=
  C9_single_timestamp "/p" "e" "t9" (30000, 39999) ["A"] createEmptyRegistry
    [("A", 30000)] ⟨1, [(30000, allocEntry "/p" "e" "A" "t9")]⟩ (by rfl)
    (30000, allocEntry "/p" "e" "A" "t9") (by simp) (by simp [createEmptyRegistry])

/-- C10: allocating an empty variable list returns the empty mapping and
persists the registry unchanged — unlike Release, the write still
happens. -/
theorem C10_empty_allocate_writes
    (fs : FileState) (projectPath envName timestamp : String)
    (portRange : Nat × Nat) (registry : PortRegistry)
    (hread : readRegistry fs = .ok registry) :
    allocatePorts fs projectPath envName [] portRange timestamp =
      ⟨.ok [], .stored registry, true⟩ := by
  rw [allocatePorts_eq_of_read fs projectPath envName [] portRange timestamp
    registry hread]
  rfl

/-- C10 witness: the empty allocation on a missing registry file creates
and writes the empty registry. -/
theorem C10_witness :
    allocatePorts .absent "/p" "e" [] DEFAULT_PORT_RANGE "t" =
      ⟨.ok [], .stored createEmptyRegistry, true⟩ :=
  C10_empty_allocate_writes .absent "/p" "e" "t" DEFAULT_PORT_RANGE
    createEmptyRegistry rfl

end Grove
